import Mathlib

/-!
Verification of the CrossHair path-exploration / search-tree engine
(`crosshair/statespace.py`) against its natural-language specification.

The Python module is shallowly embedded: pure functions become Lean
functions, the mutable node tree becomes an inductive `Node` value whose
cached fields (`result`, `exhausted`, `statehash`, `_stats`) are explicit
constructor arguments, and the stateful `StateSpace` methods become
functions from an explicit `StateSpace` record to `Except`-wrapped
results.  The external z3 solver is modelled as an abstract oracle
(`Solver.oracle` answers satisfiability queries, `Solver.modelEval`
extracts a model value); the engine only consumes those capabilities.
Python exceptions become constructors of `EngineError`.
-/

namespace CrossHair

/-! ### Verdict lattice (statespace.py, `MessageType` / `VerificationStatus`) -/

/-- Embeds `MessageType` from statespace.py (the per-message kind enum).
The inter-kind ordering is not needed by any claim and is omitted. -/
inductive MessageType where
  | CONFIRMED
  | CANNOT_CONFIRM
  | PRE_UNSAT
  | POST_ERR
  | EXEC_ERR
  | POST_FAIL
  | SYNTAX_ERR
  | IMPORT_ERR
deriving DecidableEq, Repr

/-- Embeds `VerificationStatus`: REFUTED = 0, UNKNOWN = 1, CONFIRMED = 2,
totally ordered by value ("worse" is lower). -/
inductive VerificationStatus where
  | REFUTED
  | UNKNOWN
  | CONFIRMED
deriving DecidableEq, Repr

/-- Embeds the enum `value` of each `VerificationStatus` member. -/
def VerificationStatus.value : VerificationStatus → Nat
  | .REFUTED => 0
  | .UNKNOWN => 1
  | .CONFIRMED => 2

/-- Embeds Python `min` on two `VerificationStatus` values (used by
`merge_node_results`): the one with the smaller `value`. -/
def vsMin (a b : VerificationStatus) : VerificationStatus :=
  if a.value ≤ b.value then a else b

/-! ### Solver expressions and the solver oracle -/

/-- Shallow embedding of the z3 `ExprRef`s the engine manipulates.  The
engine never inspects expression structure except to build a negation
(`z3.Not`), an equality with a model value (`expr == value`), a
disequality (`expr != value`), and to compare expressions structurally
(`z3.eq`), so this small syntax suffices.  `var` stands for any atomic
z3 constant (z3 `is_const`). -/
inductive Expr where
  | var (id : Nat)
  | not (e : Expr)
  | eqVal (e : Expr) (v : Int)
  | neVal (e : Expr) (v : Int)
deriving DecidableEq, Repr

/-- Embeds z3 `is_const` as used by `ModelValueNode.__init__` (true for
atomic constants only). -/
def Expr.is_const : Expr → Bool
  | .var _ => true
  | _ => false

/-- Result of one z3 `check()` call. -/
inductive SatResult where
  | sat
  | unsat
  | unknown
deriving DecidableEq, Repr

/-- Python exceptions raised by the engine, as error values:
`PathTimeout`, `NotDeterministic`, `UnknownSatisfiability`,
`CrosshairInternal`, `IgnoreAttempt`, plus Python `assert` failures. -/
inductive EngineError where
  | pathTimeout
  | notDeterministic
  | unknownSatisfiability
  | crosshairInternal
  | ignoreAttempt
  | assertionFailed
deriving DecidableEq, Repr

/-- The external constraint solver, abstracted: `constraints` is the
accumulated assertion stack, `oracle constraints assumptions` answers one
`solver.check(*assumptions)` call, and `modelEval constraints e` is the
concrete value `solver.model().evaluate(e, model_completion=True)`
returns right after a sat answer.  `oracle` and `modelEval` are fixed
functions: the engine only ever changes `constraints`. -/
structure Solver where
  oracle : List Expr → List Expr → SatResult
  modelEval : List Expr → Expr → Int
  constraints : List Expr

/-- Embeds `z3.Solver.add` (constraints grow; newest first). -/
def Solver.add (s : Solver) (e : Expr) : Solver :=
  { s with constraints := e :: s.constraints }

/-- Embeds `solver_is_sat` (statespace.py lines 292-298): `unknown`
raises `UnknownSatisfiability`, otherwise the answer is `ret == z3.sat`.
(The Python code also re-adds the assumptions before raising, purely to
log the solver state; the raised error discards that state.) -/
def solver_is_sat (s : Solver) (assumptions : List Expr) : Except EngineError Bool :=
  match s.oracle s.constraints assumptions with
  | .unknown => .error .unknownSatisfiability
  | .sat => .ok true
  | .unsat => .ok false

/-! ### Reports (`AnalysisMessage`, `CallAnalysis`) -/

/-- Embeds `ConditionExpr` from crosshair/condition_parser.py as far as
the engine uses it: `merge_node_results` reads only its `line` field. -/
structure ConditionExpr where
  line : Int
deriving DecidableEq, Repr

/-- Embeds the frozen dataclass `AnalysisMessage`. -/
structure AnalysisMessage where
  state : MessageType
  message : String
  filename : String
  line : Int
  column : Int
  tracebackText : String
  test_fn : Option String := none
  condition_src : Option String := none
deriving DecidableEq, Repr

/-- Embeds the dataclass `CallAnalysis`.  `realized_smt_exprs` is a set
in Python; a list is enough here (no claim inspects it). -/
structure CallAnalysis where
  verification_status : Option VerificationStatus := none
  messages : List AnalysisMessage := []
  failing_precondition : Option ConditionExpr := none
  failing_precondition_reason : String := ""
  realized_smt_exprs : List Expr := []
deriving DecidableEq, Repr

/-- A `CallAnalysis()` with every field defaulted (the class-level
default `SearchTreeNode.result`). -/
def emptyAnalysis : CallAnalysis := {}

/-! ### Statistics counters (`StateSpaceCounter`) -/

/-- Keys of a `StateSpaceCounter`: Python uses `VerificationStatus`
members, `None`, and strings `f"realize_{expr}"`.  The realization string
is represented by the expression it is formatted from. -/
inductive StatKey where
  | vstatus (s : VerificationStatus)
  | noneKey
  | realization (e : Expr)
deriving DecidableEq, Repr

/-- Embeds `StateSpaceCounter` (a `collections.Counter`): total count
function, zero on absent keys. -/
abbrev StateSpaceCounter := StatKey → Nat

/-- The empty counter. -/
def czero : StateSpaceCounter := fun _ => 0

/-- A one-key counter, `Counter({k: n})`. -/
def csingle (k : StatKey) (n : Nat) : StateSpaceCounter :=
  fun k2 => if k2 = k then n else 0

/-- Pointwise counter addition (Python `Counter + Counter`). -/
def cadd (a b : StateSpaceCounter) : StateSpaceCounter :=
  fun k => a k + b k

/-- Counter update `c[k] = n`. -/
def cset (c : StateSpaceCounter) (k : StatKey) (n : Nat) : StateSpaceCounter :=
  fun k2 => if k2 = k then n else c k2

/-- Embeds the dict comprehension in `DeatchedPathNode.stats`: keep only
the keys that are `isinstance(k, VerificationStatus)` (this drops both
the `None` bucket and every `realize_*` counter). -/
def cfilterStatus (c : StateSpaceCounter) : StateSpaceCounter :=
  fun k => match k with
    | .vstatus _ => c k
    | _ => 0

/-! ### The decision-node tree

Each Python node object becomes one constructor.  The mutable cached
fields (`result`, `exhausted`, `statehash`, `_stats`) are constructor
arguments; "mutation" is rebuilding the value.  `NodeStem.evolution`
becomes the `Option Node` payload of `stem`.  `SearchLeaf` is always
exhausted and carries its fixed stats, so those fields are left implicit
for it. -/
inductive Node where
  | stem (evolution : Option Node)
  | leaf (result : CallAnalysis)
  | singlePath (decision : Bool) (child : Node)
      (result : CallAnalysis) (exhausted : Bool) (statehash : Option String)
  | deatchedPath (child : Node)
      (result : CallAnalysis) (exhausted : Bool) (statehash : Option String)
      (statsCache : Option StateSpaceCounter)
  | parallel (falseProb : Rat) (positive : Node) (negative : Node)
      (result : CallAnalysis) (exhausted : Bool) (statehash : Option String)
      (statsCache : StateSpaceCounter)
  | worstResult (expr : Expr) (forcedPath : Option Bool)
      (positive : Node) (negative : Node)
      (result : CallAnalysis) (exhausted : Bool) (statehash : Option String)
      (statsCache : StateSpaceCounter)
  | modelValue (expr : Expr) (conditionValue : Int) (statsKey : Option Expr)
      (forcedPath : Option Bool) (positive : Node) (negative : Node)
      (result : CallAnalysis) (exhausted : Bool) (statehash : Option String)
      (statsCache : StateSpaceCounter)

/-- Embeds `NodeLike.is_stem` / `NodeStem.is_stem`: true exactly for an
unevolved stem. -/
def Node.is_stem : Node → Bool
  | .stem none => true
  | _ => false

/-- Embeds `simplify`: an evolved stem collapses to its evolution (the
evolution is itself never a stem, `grow_into` only accepts concrete
nodes); everything else simplifies to itself. -/
def Node.simplify : Node → Node
  | .stem (some n) => n
  | n => n

/-- Embeds `is_exhausted`: stems delegate to their evolution (false when
unevolved), a `SearchLeaf` is always exhausted, every other node reports
its cached `exhausted` flag. -/
def Node.is_exhausted : Node → Bool
  | .stem none => false
  | .stem (some n) => n.is_exhausted
  | .leaf _ => true
  | .singlePath _ _ _ ex _ => ex
  | .deatchedPath _ _ ex _ _ => ex
  | .parallel _ _ _ _ ex _ _ => ex
  | .worstResult _ _ _ _ _ ex _ _ => ex
  | .modelValue _ _ _ _ _ _ _ ex _ _ => ex

/-- Embeds `get_result`: an unevolved stem reports
`CallAnalysis(VerificationStatus.UNKNOWN)`, an evolved stem delegates,
a leaf holds its fixed result, every other node its cached `result`. -/
def Node.get_result : Node → CallAnalysis
  | .stem none => { emptyAnalysis with verification_status := some .UNKNOWN }
  | .stem (some n) => n.get_result
  | .leaf r => r
  | .singlePath _ _ r _ _ => r
  | .deatchedPath _ r _ _ _ => r
  | .parallel _ _ _ r _ _ _ => r
  | .worstResult _ _ _ _ r _ _ _ => r
  | .modelValue _ _ _ _ _ _ r _ _ _ => r

/-- Embeds `node_status(node)` for a non-None node:
`node.get_result().verification_status`. -/
def node_status (n : Node) : Option VerificationStatus :=
  n.get_result.verification_status

/-- The recorded call-stack fingerprint (`SearchTreeNode.statehash`,
class default `None`).  Stems and leaves never carry one. -/
def Node.statehash : Node → Option String
  | .stem _ => none
  | .leaf _ => none
  | .singlePath _ _ _ _ sh => sh
  | .deatchedPath _ _ _ sh _ => sh
  | .parallel _ _ _ _ _ sh _ => sh
  | .worstResult _ _ _ _ _ _ sh _ => sh
  | .modelValue _ _ _ _ _ _ _ _ sh _ => sh

/-- Records a call-stack fingerprint on a node
(`node.statehash = statedesc` in `choose_possible`). -/
def Node.with_statehash (sh : String) : Node → Node
  | .singlePath d c r ex _ => .singlePath d c r ex (some sh)
  | .deatchedPath c r ex _ st => .deatchedPath c r ex (some sh) st
  | .parallel fp p n r ex _ st => .parallel fp p n r ex (some sh) st
  | .worstResult e f p n r ex _ st => .worstResult e f p n r ex (some sh) st
  | .modelValue e cv sk f p n r ex _ st => .modelValue e cv sk f p n r ex (some sh) st
  | n => n

/-- Embeds `stats`: a stem delegates to its evolution (empty counter
when unevolved), a leaf counts one outcome under its status bucket
(Python key `result.verification_status`, possibly `None`), a
`SinglePathNode` reports its child's live stats, a `DeatchedPathNode`
filters its child's stats down to the verification-status buckets on
first use (cached afterwards), and the binary nodes report the counter
cached by their last `compute_result`. -/
def Node.stats : Node → StateSpaceCounter
  | .stem none => czero
  | .stem (some n) => n.stats
  | .leaf r =>
    match r.verification_status with
    | some s => csingle (.vstatus s) 1
    | none => csingle .noneKey 1
  | .singlePath _ child _ _ _ => child.stats
  | .deatchedPath child _ _ _ cache =>
    match cache with
    | some s => s
    | none => cfilterStatus child.stats
  | .parallel _ _ _ _ _ _ cache => cache
  | .worstResult _ _ _ _ _ _ _ cache => cache
  | .modelValue _ _ _ _ _ _ _ _ _ cache => cache

/-- The decision expression (`_expr`) of a materialized
`WorstResultNode` (which a `ModelValueNode` is a subclass of); `none`
for every other kind, where `choose_possible`'s
`assert isinstance(node, WorstResultNode)` would fail. -/
def Node.decision_expr : Node → Option Expr
  | .worstResult e _ _ _ _ _ _ _ => some e
  | .modelValue e _ _ _ _ _ _ _ _ _ => some e
  | _ => none

/-- Embeds the `false_probability` method resolved per node class:
`ParallelNode` escalates to 1.0 once its positive side is exhausted,
`WorstResultNode` (and its subclass `ModelValueNode`) fixes 0.75, the
`RandomizedBinaryPathNode` base default is 0.5. -/
def Node.false_probability : Node → Rat
  | .parallel fp pos _ _ _ _ _ => if pos.is_exhausted = true then 1 else fp
  | .worstResult _ _ _ _ _ _ _ _ => 3 / 4
  | .modelValue _ _ _ _ _ _ _ _ _ _ => 3 / 4
  | _ => 1 / 2

/-- Embeds `RandomizedBinaryPathNode.choose` (statespace.py lines
396-408).  `randval` stands for the `self._random.uniform(0.0, 1.0)`
draw.  (Python asserts that at least one side is still unexhausted; when
both are exhausted this model returns the negative side where Python
would raise `AssertionError` — no claim exercises that state.) -/
def randomized_binary_choose (n positive negative : Node) (randval : Rat)
    (favor_true : Bool) : Bool × Node :=
  let positive_ok := !positive.is_exhausted
  let negative_ok := !negative.is_exhausted
  let choice :=
    if positive_ok && negative_ok then
      if favor_true then true else decide (randval > n.false_probability)
    else positive_ok
  (choice, if choice then positive else negative)

/-- Embeds `choose` for each node kind: `SinglePathNode` always takes
its fixed decision (a `DeatchedPathNode` was constructed with decision
`True`), `ParallelNode` uses the randomized policy, and
`WorstResultNode` / `ModelValueNode` follow `forced_path` when set and
fall back to the randomized policy otherwise.  Stems and leaves have no
`choose` in Python (`NotImplementedError`); the junk value returned here
is never reached by the orchestrator functions below. -/
def Node.choose (n : Node) (randval : Rat) (favor_true : Bool) : Bool × Node :=
  match n with
  | .singlePath d child _ _ _ => (d, child)
  | .deatchedPath child _ _ _ _ => (true, child)
  | .parallel _ pos neg _ _ _ _ => randomized_binary_choose n pos neg randval favor_true
  | .worstResult _ fp pos neg _ _ _ _ =>
    (match fp with
     | none => randomized_binary_choose n pos neg randval favor_true
     | some b => (b, if b then pos else neg))
  | .modelValue _ _ _ fp pos neg _ _ _ _ =>
    (match fp with
     | none => randomized_binary_choose n pos neg randval favor_true
     | some b => (b, if b then pos else neg))
  | other => (true, other)

/-! ### Result merge policy and per-kind `compute_result` -/

/-- Embeds `merge_node_results(left, exhausted, node)` (statespace.py
lines 449-477): `right` is `node.get_result()`; the fully-explored flag
is cleared unless `node.is_exhausted()`; a side with no verdict yields
the other side unchanged; otherwise the statuses meet at their minimum,
messages concatenate left-then-right, and the failing precondition comes
from the side picked by the source-line rule. -/
def merge_node_results (left : CallAnalysis) (exhausted : Bool) (node : Node) :
    CallAnalysis × Bool :=
  let right := node.get_result
  let exhausted := if !node.is_exhausted then false else exhausted
  match left.verification_status with
  | none => (right, exhausted)
  | some lv =>
    match right.verification_status with
    | none => (left, exhausted)
    | some rv =>
      let precond_side :=
        match left.failing_precondition, right.failing_precondition with
        | some lc, some rc => if lc.line > rc.line then left else right
        | _, _ => if left.failing_precondition.isSome then left else right
      ({ verification_status := some (vsMin lv rv),
         messages := left.messages ++ right.messages,
         failing_precondition := precond_side.failing_precondition,
         failing_precondition_reason := precond_side.failing_precondition_reason },
       exhausted)

/-- Embeds `SinglePathNode.compute_result`: simplify the child, then
report its result and exhaustion. -/
def SinglePathNode.compute_result (child : Node) : CallAnalysis × Bool :=
  let child := child.simplify
  (child.get_result, child.is_exhausted)

/-- Embeds `DeatchedPathNode.compute_result`: the detached path adopts
the leaf analysis and reports itself exhausted. -/
def DeatchedPathNode.compute_result (leaf_analysis : CallAnalysis) (child : Node) :
    CallAnalysis × Bool :=
  let _ := child.simplify
  (leaf_analysis, true)

/-- Embeds `ParallelNode.compute_result` (statespace.py lines 426-443).
The second component is the counter the Python method stores into
`self._stats`: the winning child's full stats when an exhausted child
with a non-UNKNOWN status exists, otherwise the sum of both children's
stats. -/
def ParallelNode.compute_result (positive negative : Node) (_leaf_analysis : CallAnalysis) :
    (CallAnalysis × Bool) × StateSpaceCounter :=
  let positive := positive.simplify
  let negative := negative.simplify
  let pos_exhausted := positive.is_exhausted
  let neg_exhausted := negative.is_exhausted
  if pos_exhausted = true ∧ ¬node_status positive = some .UNKNOWN then
    ((positive.get_result, true), positive.stats)
  else if neg_exhausted = true ∧ ¬node_status negative = some .UNKNOWN then
    ((negative.get_result, true), negative.stats)
  else
    (merge_node_results positive.get_result (pos_exhausted && neg_exhausted) negative,
     cadd positive.stats negative.stats)

/-- Embeds `WorstResultNode._is_exhausted`: both children exhausted, or
the single forced-to child exhausted. -/
def WorstResultNode.is_exhausted_calc (forcedPath : Option Bool)
    (positive negative : Node) : Bool :=
  (positive.is_exhausted && negative.is_exhausted)
    || (decide (forcedPath = some true) && positive.is_exhausted)
    || (decide (forcedPath = some false) && negative.is_exhausted)

/-- Embeds `WorstResultNode.compute_result` (statespace.py lines
523-540).  The second component is the counter stored into
`self._stats`: the adopted child's stats on the refuted/forced branches,
otherwise the sum. -/
def WorstResultNode.compute_result (forcedPath : Option Bool)
    (positive negative : Node) : (CallAnalysis × Bool) × StateSpaceCounter :=
  let positive := positive.simplify
  let negative := negative.simplify
  let exhausted := WorstResultNode.is_exhausted_calc forcedPath positive negative
  if node_status positive = some .REFUTED ∨ forcedPath = some true then
    ((positive.get_result, exhausted), positive.stats)
  else if node_status negative = some .REFUTED ∨ forcedPath = some false then
    ((negative.get_result, exhausted), negative.stats)
  else
    (merge_node_results positive.get_result positive.is_exhausted negative,
     cadd positive.stats negative.stats)

/-- Embeds `ModelValueNode.compute_result`: run the `WorstResultNode`
rule, then bump the per-expression realization tally (`stats_key` is
`None` for non-constant expressions, in which case nothing is tallied).
`prevStats` is the node's `self._stats` before the call, from which the
old tally is read. -/
def ModelValueNode.compute_result (statsKey : Option Expr) (prevStats : StateSpaceCounter)
    (forcedPath : Option Bool) (positive negative : Node) :
    (CallAnalysis × Bool) × StateSpaceCounter :=
  let old_realizations :=
    match statsKey with
    | some k => prevStats (.realization k)
    | none => prevStats .noneKey
  let res := WorstResultNode.compute_result forcedPath positive negative
  match statsKey with
  | some k => (res.1, cset res.2 (.realization k) (old_realizations + 1))
  | none => (res.1, res.2)

/-! ### Node construction (`WorstResultNode.__init__`, `ModelValueNode.__init__`) -/

/-- Embeds `WorstResultNode.__init__` (statespace.py lines 483-496): one
satisfiability check of `expr`, one of `z3.Not(expr)`; both impossible
is a fatal internal fault; a one-sided answer forces the path.  Returns
the computed `forced_path` together with the list of assumption sets
passed to the solver, in order (the query log). -/
def mkWorstResultNode (s : Solver) (expr : Expr) :
    Except EngineError (Option Bool) × List (List Expr) :=
  let notexpr := Expr.not expr
  let q1 := s.oracle s.constraints [expr]
  if q1 = .unknown then (.error .unknownSatisfiability, [[expr]])
  else
    let q2 := s.oracle s.constraints [notexpr]
    if q2 = .unknown then (.error .unknownSatisfiability, [[expr], [notexpr]])
    else
      let could_be_true := q1 = .sat
      let could_be_false := q2 = .sat
      if ¬could_be_true ∧ ¬could_be_false then
        (.error .crosshairInternal, [[expr], [notexpr]])
      else if ¬could_be_true then (.ok (some false), [[expr], [notexpr]])
      else if ¬could_be_false then (.ok (some true), [[expr], [notexpr]])
      else (.ok none, [[expr], [notexpr]])

/-- Embeds `ModelValueNode.__init__` (statespace.py lines 543-552): the
solver must still be satisfiable with no extra assumptions (`unsat`
right before model extraction is the fatal `CrosshairInternal`
"Unexpected unsat from solver"); the condition value is pulled from the
current model; then the node initializes as a `WorstResultNode` keyed on
`expr == condition_value`.  Returns (condition value, stats key, forced
path). -/
def mkModelValueNode (s : Solver) (expr : Expr) :
    Except EngineError (Int × Option Expr × Option Bool) :=
  match s.oracle s.constraints [] with
  | .unknown => .error .unknownSatisfiability
  | .unsat => .error .crosshairInternal
  | .sat =>
    let condition_value := s.modelEval s.constraints expr
    let stats_key := if expr.is_const then some expr else none
    match (mkWorstResultNode s (.eqVal expr condition_value)).1 with
    | .error e => .error e
    | .ok fp => .ok (condition_value, stats_key, fp)

/-! ### The symbolic heap -/

/-- One heap entry `(ref, typ, value)`.  Reference identities are solver
expressions; logical types are opaque tags; values are represented by
their Python object identity (a `Nat`), so that `copy.deepcopy` — which
yields a distinct object — is modelled by allocating a fresh identity. -/
structure HeapEntry where
  ref : Expr
  typ : Nat
  val : Nat
deriving DecidableEq, Repr

/-- Embeds `StateSpace.add_value_to_heaps` (statespace.py lines
758-762): every snapshot except the newest receives a deep copy of the
value (modelled as a freshly allocated identity, drawn from and
advancing `next_id`), and the newest snapshot receives the value
itself. -/
def add_value_to_heaps (heaps : List (List HeapEntry)) (next_id : Nat)
    (ref : Expr) (typ : Nat) (value : Nat) : List (List HeapEntry) × Nat :=
  match heaps with
  | [] => ([], next_id)
  | [live] => ([live ++ [⟨ref, typ, value⟩]], next_id)
  | older :: rest =>
    let (rest2, n2) := add_value_to_heaps rest (next_id + 1) ref typ value
    ((older ++ [⟨ref, typ, next_id⟩]) :: rest2, n2)

/-- Deep copy of a snapshot's entries, allocating fresh identities
(used by `checkpoint`). -/
def copy_entries (next_id : Nat) : List HeapEntry → List HeapEntry × Nat
  | [] => ([], next_id)
  | e :: rest =>
    let (rest2, n2) := copy_entries (next_id + 1) rest
    ({ e with val := next_id } :: rest2, n2)

/-- Embeds `StateSpace.checkpoint`: append a deep copy of the newest
snapshot. -/
def checkpoint (heaps : List (List HeapEntry)) (next_id : Nat) :
    List (List HeapEntry) × Nat :=
  let (copied, n2) := copy_entries next_id (heaps.getLastD [])
  (heaps ++ [copied], n2)

/-- Embeds `StateSpace.find_key_in_heap` (statespace.py lines 764-800)
at the default snapshot (`heaps[-1]`, the live one).  Two of its
collaborators are abstracted as oracles: `unify` is
`dynamic_typing.unify(curtyp, typ)`, and `fork` is the boolean outcome
of `self.smt_fork(curref == ref)` (a solver-backed decision, taken per
candidate entry).  `proxy` is `proxy_generator(typ)`, modelled as
creating exactly one fresh object identity from `next_id`.  On a miss
the fresh value is appended to every snapshot via
`add_value_to_heaps`. -/
def find_key_in_heap (unify : Nat → Nat → Bool) (fork : Expr → Expr → Bool)
    (heaps : List (List HeapEntry)) (next_id : Nat)
    (ref : Expr) (typ : Nat) (proxy : Nat → Nat → Nat) :
    Nat × List (List HeapEntry) × Nat :=
  match (heaps.getLastD []).find? (fun e => unify e.typ typ && fork e.ref ref) with
  | some e => (e.val, heaps, next_id)
  | none =>
    let ret := proxy typ next_id
    let (heaps2, n2) := add_value_to_heaps heaps (next_id + 1) ref typ ret
    (ret, heaps2, n2)

/-! ### The exploration session (`StateSpace`) -/

/-- Embeds the `StateSpace` fields the verified operations touch.  The
tree cursor `search_position` holds the node at the current position
(Python holds a reference into the shared tree; claims here only concern
single calls, for which the value suffices).  `deferred_assumptions`
pairs each description with the boolean outcome its checker produces at
`detach_path` time. -/
structure StateSpace where
  solver : Solver
  execution_deadline : Rat
  search_position : Node
  choices_made : List Node
  is_detached : Bool
  heaps : List (List HeapEntry)
  next_obj_id : Nat
  deferred_assumptions : List (String × Bool)

/-- The statehash bookkeeping, node choice, cursor advance and
constraint assertion shared by both branches of `choose_possible`
(statespace.py lines 667-705): record or verify the call-stack
fingerprint (a mismatch is `NotDeterministic`), delegate to the node's
choice policy, append the node to `choices_made`, move the cursor to the
chosen child, and assert the chosen literal. -/
def choose_possible_tail (ss : StateSpace) (node : Node) (statedesc : String)
    (randval : Rat) (expr : Expr) (favor_true : Bool) :
    Except EngineError (Bool × StateSpace) :=
  let checked : Except EngineError Node :=
    match node.statehash with
    | none => .ok (node.with_statehash statedesc)
    | some h => if h = statedesc then .ok node else .error .notDeterministic
  match checked with
  | .error e => .error e
  | .ok node =>
    let (choose_true, stem) := node.choose randval favor_true
    let chosen_expr := if choose_true then expr else Expr.not expr
    .ok (choose_true,
      { ss with
        search_position := stem,
        choices_made := ss.choices_made ++ [node],
        solver := ss.solver.add chosen_expr })

/-- Embeds `StateSpace.choose_possible` (statespace.py lines 641-705).
`now` is `time.monotonic()`, `statedesc` the current call-stack
fingerprint, `randval` the node's random draw.  The second component is
the log of solver queries issued (assumption sets, in order).  The
deadline is checked before anything else; at a stem a `WorstResultNode`
is grown (its constructor performs the two satisfiability checks);
otherwise the materialized node must be a `WorstResultNode` (a Python
`assert`) with a structurally equal expression, else the call fails
`NotDeterministic`. -/
def choose_possible (ss : StateSpace) (now randval : Rat) (statedesc : String)
    (expr : Expr) (favor_true : Bool) :
    Except EngineError (Bool × StateSpace) × List (List Expr) :=
  if now > ss.execution_deadline then (.error .pathTimeout, [])
  else if ss.search_position.is_stem then
    match mkWorstResultNode ss.solver expr with
    | (.error e, qs) => (.error e, qs)
    | (.ok fp, qs) =>
      let node := Node.worstResult expr fp (.stem none) (.stem none)
        emptyAnalysis false none czero
      (choose_possible_tail ss node statedesc randval expr favor_true, qs)
  else
    let node := ss.search_position.simplify
    match node.decision_expr with
    | none => (.error .assertionFailed, [])
    | some e2 =>
      if e2 = expr then
        (choose_possible_tail ss node statedesc randval expr favor_true, [])
      else (.error .notDeterministic, [])

/-- Whether a node is a materialized `ModelValueNode` (the isinstance
check in `find_model_value`). -/
def Node.is_model_value : Node → Bool
  | .modelValue _ _ _ _ _ _ _ _ _ _ => true
  | _ => false

/-- Embeds `StateSpace.find_model_value` (statespace.py lines 707-737).
The Python `while True` loop becomes fuel-indexed recursion; `.ok none`
means the fuel ran out with the loop still running.  Each pass grows (or
finds) a `ModelValueNode`, takes its choice with `favor_true=True`, and
either asserts `expr == condition_value` and returns the concrete value
(`model_value_to_python` is the identity on the `Int` model values used
here) or asserts `expr != condition_value` and continues at the negative
child.  A materialized node of any other kind is `NotDeterministic`. -/
def find_model_value : Nat → StateSpace → Expr →
    Except EngineError (Option (Int × StateSpace))
  | 0, _, _ => .ok none
  | fuel + 1, ss, expr =>
    let grown : Except EngineError Node :=
      if ss.search_position.is_stem then
        match mkModelValueNode ss.solver expr with
        | .error e => .error e
        | .ok (cv, sk, fp) =>
          .ok (.modelValue (.eqVal expr cv) cv sk fp (.stem none) (.stem none)
            emptyAnalysis false none czero)
      else .ok ss.search_position.simplify
    match grown with
    | .error e => .error e
    | .ok node =>
      match node with
      | .modelValue _ cv _ _ _ _ _ _ _ _ =>
        let (chosen, next) := node.choose 0 true
        let ss := { ss with
          choices_made := ss.choices_made ++ [node],
          search_position := next }
        if chosen then
          .ok (some (cv, { ss with solver := ss.solver.add (.eqVal expr cv) }))
        else
          find_model_value fuel { ss with solver := ss.solver.add (.neVal expr cv) } expr
      | _ => .error .notDeterministic

/-- Embeds `StateSpace.detach_path` (statespace.py lines 819-845).  An
already-detached session returns unchanged.  Otherwise the deadline is
extended by the fixed 2-second grace, every deferred assumption is
evaluated (a failure raises `IgnoreAttempt`; checker outcomes are the
stored booleans), and a `DeatchedPathNode` is grown at the cursor (which
the code asserts is a stem), the cursor moving to its child stem. -/
def detach_path (ss : StateSpace) : Except EngineError StateSpace :=
  if ss.is_detached then .ok ss
  else
    let ss := { ss with execution_deadline := ss.execution_deadline + 2 }
    if ss.deferred_assumptions.all (fun da => da.2) then
      if ss.search_position.is_stem then
        let node := Node.deatchedPath (.stem none) emptyAnalysis false none none
        .ok { ss with
          is_detached := true,
          choices_made := ss.choices_made ++ [node],
          search_position := .stem none }
      else .error .assertionFailed
    else .error .ignoreAttempt

/-! ## Theorems -/

/-- A sample exploration session used by concrete witnesses: fresh
solver with the given oracle and model evaluator, cursor at the given
node, deadline 10. -/
def sampleSpace (o : List Expr → List Expr → SatResult)
    (me : List Expr → Expr → Int) (pos : Node) : StateSpace :=
  { solver := { oracle := o, modelEval := me, constraints := [] },
    execution_deadline := 10,
    search_position := pos,
    choices_made := [],
    is_detached := false,
    heaps := [[]],
    next_obj_id := 0,
    deferred_assumptions := [] }

/-- C7: every call to the decide primitive (`choose_possible`) checks
the per-path wall-clock deadline before doing anything else, and raises
`PathTimeout` when the current time exceeds the deadline.  The result is
the bare error with an empty solver-query log: no node is materialized,
the solver is not consulted, no constraint is added and the session is
unchanged. -/
theorem choose_possible_deadline_first (ss : StateSpace) (now randval : Rat)
    (statedesc : String) (expr : Expr) (favor_true : Bool)
    (h : now > ss.execution_deadline) :
    choose_possible ss now randval statedesc expr favor_true
      = (.error .pathTimeout, []) := by
  simp [choose_possible, h]

/-- Witness for C7 at a concrete session: time 11 against deadline 10
times out. -/
theorem choose_possible_deadline_first_witness :
    choose_possible (sampleSpace (fun _ _ => .sat) (fun _ _ => 0) (.stem none))
        11 0 "" (.var 0) false
      = (.error .pathTimeout, []) :=
  choose_possible_deadline_first _ 11 0 "" (.var 0) false (by norm_num [sampleSpace])

/-- C8: `solver_is_sat` raises `UnknownSatisfiability` exactly when the
solver answers unknown (never silently treating it as unsat), returns
true exactly on sat and false exactly on unsat; and the fault propagates
to the engine's caller, e.g. out of `choose_possible` when growing a
node over an expression whose satisfiability check comes back
unknown. -/
theorem solver_is_sat_spec :
    (∀ (s : Solver) (a : List Expr),
        (solver_is_sat s a = .error .unknownSatisfiability
          ↔ s.oracle s.constraints a = .unknown)
      ∧ (solver_is_sat s a = .ok true ↔ s.oracle s.constraints a = .sat)
      ∧ (solver_is_sat s a = .ok false ↔ s.oracle s.constraints a = .unsat))
  ∧ (∀ (ss : StateSpace) (now randval : Rat) (sd : String) (expr : Expr) (ft : Bool),
      ¬now > ss.execution_deadline →
      ss.search_position.is_stem = true →
      ss.solver.oracle ss.solver.constraints [expr] = .unknown →
      (choose_possible ss now randval sd expr ft).1 = .error .unknownSatisfiability) := by
  constructor
  · intro s a
    rcases h : s.oracle s.constraints a <;> simp [solver_is_sat, h]
  · intro ss now randval sd expr ft hnow hstem hunk
    simp [choose_possible, hnow, hstem, mkWorstResultNode, hunk]

/-- Witness for C8 at a concrete solver whose oracle answers unknown:
the fault comes out of both `solver_is_sat` and `choose_possible`. -/
theorem solver_is_sat_spec_witness :
    (solver_is_sat { oracle := fun _ _ => .unknown,
                     modelEval := fun _ _ => 0,
                     constraints := [] } [] = .error .unknownSatisfiability)
  ∧ (choose_possible (sampleSpace (fun _ _ => .unknown) (fun _ _ => 0) (.stem none))
        0 0 "" (.var 0) false).1 = .error .unknownSatisfiability :=
  ⟨(solver_is_sat_spec.1 _ []).1.mpr rfl,
   solver_is_sat_spec.2 _ 0 0 "" (.var 0) false (by norm_num [sampleSpace]) rfl rfl⟩

/-- C10: `detach_path` is idempotent.  An already-detached session
returns immediately and completely unchanged (same deadline, same
deferred assumptions, same tree cursor, same choices), and any session
on which `detach_path` has completed successfully is detached, so a
second call changes nothing. -/
theorem detach_path_idempotent :
    (∀ ss : StateSpace, ss.is_detached = true → detach_path ss = .ok ss)
  ∧ (∀ ss ss2 : StateSpace, detach_path ss = .ok ss2 → detach_path ss2 = .ok ss2) := by
  have base : ∀ ss : StateSpace, ss.is_detached = true → detach_path ss = .ok ss := by
    intro ss h
    simp [detach_path, h]
  refine ⟨base, ?_⟩
  intro ss ss2 h
  by_cases hd : ss.is_detached
  · rw [base ss hd] at h
    cases h
    exact base ss hd
  · unfold detach_path at h
    rw [if_neg hd] at h
    dsimp only at h
    split at h
    · split at h
      · cases h
        exact base _ rfl
      · cases h
    · cases h

/-- Witness for C10: detaching a freshly detached concrete session
returns it unchanged. -/
theorem detach_path_idempotent_witness :
    detach_path { (sampleSpace (fun _ _ => .sat) (fun _ _ => 0) (.stem none))
        with is_detached := true }
      = .ok { (sampleSpace (fun _ _ => .sat) (fun _ _ => 0) (.stem none))
        with is_detached := true } :=
  detach_path_idempotent.1 _ rfl

/-- C2: constructing a `WorstResultNode` performs exactly one
satisfiability check of the expression and one of its negation (the
query log of a successful construction is exactly those two assumption
sets, in order); a node whose `forced_path` is set always chooses that
side, whatever the random draw and the `favor_true` flag; its
`_is_exhausted` equals the forced child's exhaustion, whatever the other
child's state; and when exactly one side is satisfiable, construction
forces the node to that side — in particular an unsatisfiable negation
forces the positive child. -/
theorem worst_result_node_forcing :
    (∀ (s : Solver) (expr : Expr) (fp : Option Bool),
      (mkWorstResultNode s expr).1 = .ok fp →
      (mkWorstResultNode s expr).2 = [[expr], [Expr.not expr]])
  ∧ (∀ (e : Expr) (b : Bool) (pos neg : Node) (r : CallAnalysis) (ex : Bool)
      (sh : Option String) (st : StateSpaceCounter) (randval : Rat) (ft : Bool),
      Node.choose (.worstResult e (some b) pos neg r ex sh st) randval ft
        = (b, if b then pos else neg))
  ∧ (∀ (b : Bool) (pos neg : Node),
      WorstResultNode.is_exhausted_calc (some b) pos neg
        = (if b then pos else neg).is_exhausted)
  ∧ (∀ (s : Solver) (expr : Expr),
      s.oracle s.constraints [expr] = .sat →
      s.oracle s.constraints [Expr.not expr] = .unsat →
      (mkWorstResultNode s expr).1 = .ok (some true))
  ∧ (∀ (s : Solver) (expr : Expr),
      s.oracle s.constraints [expr] = .unsat →
      s.oracle s.constraints [Expr.not expr] = .sat →
      (mkWorstResultNode s expr).1 = .ok (some false)) := by
  refine ⟨?_, ?_, ?_, ?_, ?_⟩
  · intro s expr fp h
    unfold mkWorstResultNode at h ⊢
    dsimp only at h ⊢
    split_ifs at h ⊢ <;> simp_all
  · intro e b pos neg r ex sh st randval ft
    simp [Node.choose]
  · intro b pos neg
    cases b <;> cases hp : pos.is_exhausted <;> cases hn : neg.is_exhausted <;>
      simp [WorstResultNode.is_exhausted_calc, hp, hn]
  · intro s expr h1 h2
    simp [mkWorstResultNode, h1, h2]
  · intro s expr h1 h2
    simp [mkWorstResultNode, h1, h2]

/-- Witness for C2 at a concrete solver: the expression is satisfiable,
its negation is not, so the node is forced to the positive child; the
query log is the two checks; choose returns the positive child for any
draw; exhaustion tracks the positive child only. -/
theorem worst_result_node_forcing_witness :
    ((mkWorstResultNode
        { oracle := fun _ a => if a = [Expr.not (.var 0)] then .unsat else .sat,
          modelEval := fun _ _ => 0,
          constraints := [] } (.var 0)).1 = .ok (some true))
  ∧ ((mkWorstResultNode
        { oracle := fun _ a => if a = [Expr.not (.var 0)] then .unsat else .sat,
          modelEval := fun _ _ => 0,
          constraints := [] } (.var 0)).2 = [[.var 0], [.not (.var 0)]])
  ∧ (Node.choose (.worstResult (.var 0) (some true) (.leaf emptyAnalysis)
        (.stem none) emptyAnalysis false none czero) (1 / 2) false
      = (true, .leaf emptyAnalysis))
  ∧ (WorstResultNode.is_exhausted_calc (some true) (.leaf emptyAnalysis)
        (.stem none) = true) := by
  have hforced := worst_result_node_forcing.2.2.2.1
    { oracle := fun _ a => if a = [Expr.not (.var 0)] then .unsat else .sat,
      modelEval := fun _ _ => 0,
      constraints := [] } (.var 0) (by decide) (by decide)
  refine ⟨hforced, ?_, ?_, ?_⟩
  · exact worst_result_node_forcing.1 _ _ (some true) hforced
  · exact worst_result_node_forcing.2.1 (.var 0) true (.leaf emptyAnalysis)
      (.stem none) emptyAnalysis false none czero (1 / 2) false
  · exact worst_result_node_forcing.2.2.1 true (.leaf emptyAnalysis) (.stem none)

/-- C1: the report-merge operation.  The fully-explored flag is the
conjunction of the caller-supplied flag with the node's own exhaustion
(so it is true only if both are); a left report without a verdict
yields the right report, a right report without one yields the left; and
when both sides carry a verdict the merged report takes the minimum
(worse) status, the left messages followed by the right messages, and
the failing precondition of whichever side has one — the side with the
strictly greater source line when both do. -/
theorem merge_node_results_spec (left : CallAnalysis) (ex : Bool) (node : Node) :
    ((merge_node_results left ex node).2 = (ex && node.is_exhausted))
  ∧ (left.verification_status = none →
      merge_node_results left ex node = (node.get_result, ex && node.is_exhausted))
  ∧ (left.verification_status ≠ none →
     node.get_result.verification_status = none →
      merge_node_results left ex node = (left, ex && node.is_exhausted))
  ∧ (∀ lv rv, left.verification_status = some lv →
      node.get_result.verification_status = some rv →
        ((merge_node_results left ex node).1.verification_status = some (vsMin lv rv)
      ∧ (merge_node_results left ex node).1.messages
          = left.messages ++ node.get_result.messages
      ∧ (∀ lc rc, left.failing_precondition = some lc →
          node.get_result.failing_precondition = some rc →
          (merge_node_results left ex node).1.failing_precondition
            = some (if lc.line > rc.line then lc else rc))
      ∧ (left.failing_precondition = none →
          (merge_node_results left ex node).1.failing_precondition
            = node.get_result.failing_precondition)
      ∧ (node.get_result.failing_precondition = none →
          (merge_node_results left ex node).1.failing_precondition
            = left.failing_precondition))) := by
  have hflag : (if !node.is_exhausted then false else ex) = (ex && node.is_exhausted) := by
    cases hne : node.is_exhausted <;> simp [hne]
  refine ⟨?_, ?_, ?_, ?_⟩
  · rcases hlv : left.verification_status with _ | lv <;>
      rcases hrv : node.get_result.verification_status with _ | rv <;>
      simp [merge_node_results, hlv, hrv, hflag, Bool.and_comm]
  · intro hl
    simp [merge_node_results, hl, hflag, Bool.and_comm]
  · intro hl hr
    rcases hlv : left.verification_status with _ | lv
    · exact absurd hlv hl
    · simp [merge_node_results, hlv, hr, hflag, Bool.and_comm]
  · intro lv rv hlv hrv
    refine ⟨?_, ?_, ?_, ?_, ?_⟩
    · simp [merge_node_results, hlv, hrv]
    · simp [merge_node_results, hlv, hrv]
    · intro lc rc hlc hrc
      simp only [merge_node_results, hlv, hrv, hlc, hrc]
      split_ifs <;> simp [hlc, hrc]
    · intro hlc
      rcases hrc : node.get_result.failing_precondition with _ | rc <;>
        simp [merge_node_results, hlv, hrv, hlc, hrc]
    · intro hrc
      rcases hlc : left.failing_precondition with _ | lc <;>
        simp [merge_node_results, hlv, hrv, hlc, hrc]

/-- Witness for C1: merging a refuted left report (precondition at line
5) with a confirmed right report (precondition at line 3) under an
exhausted leaf keeps the worse REFUTED status, concatenates the
messages left-then-right, and keeps the left (later-line)
precondition. -/
theorem merge_node_results_spec_witness :
    ((merge_node_results
        { emptyAnalysis with
            verification_status := some .REFUTED,
            failing_precondition := some ⟨5⟩ }
        true
        (.leaf { emptyAnalysis with
            verification_status := some .CONFIRMED,
            failing_precondition := some ⟨3⟩ })).1.verification_status
      = some .REFUTED)
  ∧ ((merge_node_results
        { emptyAnalysis with
            verification_status := some .REFUTED,
            failing_precondition := some ⟨5⟩ }
        true
        (.leaf { emptyAnalysis with
            verification_status := some .CONFIRMED,
            failing_precondition := some ⟨3⟩ })).1.failing_precondition
      = some ⟨5⟩)
  ∧ ((merge_node_results
        { emptyAnalysis with
            verification_status := some .REFUTED,
            failing_precondition := some ⟨5⟩ }
        true
        (.leaf { emptyAnalysis with
            verification_status := some .CONFIRMED,
            failing_precondition := some ⟨3⟩ })).2 = true) := by
  have h := merge_node_results_spec
    { emptyAnalysis with
        verification_status := some .REFUTED,
        failing_precondition := some ⟨5⟩ }
    true
    (.leaf { emptyAnalysis with
        verification_status := some .CONFIRMED,
        failing_precondition := some ⟨3⟩ })
  have h4 := h.2.2.2 .REFUTED .CONFIRMED rfl rfl
  refine ⟨h4.1, ?_, ?_⟩
  · have := h4.2.2.1 ⟨5⟩ ⟨3⟩ rfl rfl
    simpa using this
  · simpa using h.1

/-- C3: replay-mismatch detection.  At an already-materialized position
(within the deadline), when the stored `WorstResultNode`'s decision
expression differs structurally from the supplied one, or the recorded
call-stack fingerprint differs from the current visit's,
`choose_possible` fails with `NotDeterministic`; and `find_model_value`
fails the same way when the materialized node is not a
`ModelValueNode`. -/
theorem nondeterminism_fault_spec :
    (∀ (ss : StateSpace) (now randval : Rat) (sd : String) (expr e2 : Expr) (ft : Bool),
      ¬now > ss.execution_deadline →
      ss.search_position.is_stem = false →
      ss.search_position.simplify.decision_expr = some e2 →
      (e2 ≠ expr ∨ ∃ h, ss.search_position.simplify.statehash = some h ∧ h ≠ sd) →
      (choose_possible ss now randval sd expr ft).1 = .error .notDeterministic)
  ∧ (∀ (fuel : Nat) (ss : StateSpace) (expr : Expr),
      ss.search_position.is_stem = false →
      ss.search_position.simplify.is_model_value = false →
      find_model_value (fuel + 1) ss expr = .error .notDeterministic) := by
  constructor
  · intro ss now randval sd expr e2 ft hnow hstem hdec hbad
    unfold choose_possible
    rw [if_neg hnow]
    simp only [hstem, Bool.false_eq_true, if_false, hdec]
    by_cases he : e2 = expr
    · rcases hbad with hne | ⟨h, hsh, hhd⟩
      · exact absurd he hne
      · rw [if_pos he]
        unfold choose_possible_tail
        rw [hsh]
        simp [hhd]
    · rw [if_neg he]
  · intro fuel ss expr hstem hkind
    unfold find_model_value
    simp only [hstem, Bool.false_eq_true, if_false]
    rcases hs : ss.search_position.simplify with evo | r | d | c | p | w | m
    · rfl
    · rfl
    · rfl
    · rfl
    · rfl
    · rfl
    · rw [hs] at hkind
      simp [Node.is_model_value] at hkind

/-- Witness for C3: a materialized `WorstResultNode` over `var 0`
replayed with `var 1` is a nondeterminism fault, and so is
`find_model_value` landing on a leaf. -/
theorem nondeterminism_fault_spec_witness :
    ((choose_possible
        (sampleSpace (fun _ _ => .sat) (fun _ _ => 0)
          (.worstResult (.var 0) none (.stem none) (.stem none)
            emptyAnalysis false none czero))
        0 0 "" (.var 1) false).1 = .error .notDeterministic)
  ∧ (find_model_value 1
        (sampleSpace (fun _ _ => .sat) (fun _ _ => 0) (.leaf emptyAnalysis))
        (.var 0) = .error .notDeterministic) :=
  ⟨nondeterminism_fault_spec.1 _ 0 0 "" (.var 1) (.var 0) false
      (by norm_num [sampleSpace]) rfl rfl (Or.inl (by decide)),
   nondeterminism_fault_spec.2 0 _ (.var 0) rfl rfl⟩

/-- Counterexample to C9 as stated: the claim says the statistics a
Racing (Parallel) node propagates to its parent contain only
verdict-bucket counts and never realization counters, so every
realization key of the counter `ParallelNode.compute_result` stores
would have to be 0.  But for a parallel node whose positive child is an
exhausted REFUTED subtree carrying the realization tally
`realize_(var 0) = 1` (exactly what `ModelValueNode.compute_result`
produces), the stored counter keeps that realization count at 1. -/
theorem parallel_stats_counterexample :
    ((ParallelNode.compute_result
        (.worstResult (.var 0) none (.stem none) (.stem none)
          { emptyAnalysis with verification_status := some .REFUTED }
          true none (csingle (.realization (.var 0)) 1))
        (.stem none) emptyAnalysis).2 (.realization (.var 0)) = 1)
  ∧ ¬((ParallelNode.compute_result
        (.worstResult (.var 0) none (.stem none) (.stem none)
          { emptyAnalysis with verification_status := some .REFUTED }
          true none (csingle (.realization (.var 0)) 1))
        (.stem none) emptyAnalysis).2 (.realization (.var 0)) = 0) := by
  constructor
  · rfl
  · intro h
    simp [ParallelNode.compute_result, node_status, Node.simplify, Node.is_exhausted,
      Node.get_result, Node.stats, csingle] at h

/-- C9 as amended: only the Detached node narrows what it propagates —
its stats keep exactly the verdict-bucket counts of its child (every
realization counter and the no-verdict bucket are dropped), so it looks
like an ordinary leaf from the parent's perspective; the Racing
(Parallel) node propagates its children's statistics unfiltered: its
compute step stores the winning child's full stats when some child is
exhausted with a non-UNKNOWN status, and the pointwise sum of both
children's full stats otherwise. -/
theorem stats_propagation_amended :
    (∀ (child : Node) (r : CallAnalysis) (ex : Bool) (sh : Option String),
        (∀ e, (Node.deatchedPath child r ex sh none).stats (.realization e) = 0)
      ∧ ((Node.deatchedPath child r ex sh none).stats .noneKey = 0)
      ∧ (∀ s, (Node.deatchedPath child r ex sh none).stats (.vstatus s)
          = child.stats (.vstatus s)))
  ∧ (∀ (pos neg : Node) (la : CallAnalysis),
        (pos.simplify.is_exhausted = true → ¬node_status pos.simplify = some .UNKNOWN →
          (ParallelNode.compute_result pos neg la).2 = pos.simplify.stats)
      ∧ (¬(pos.simplify.is_exhausted = true ∧ ¬node_status pos.simplify = some .UNKNOWN) →
          neg.simplify.is_exhausted = true → ¬node_status neg.simplify = some .UNKNOWN →
          (ParallelNode.compute_result pos neg la).2 = neg.simplify.stats)
      ∧ (¬(pos.simplify.is_exhausted = true ∧ ¬node_status pos.simplify = some .UNKNOWN) →
         ¬(neg.simplify.is_exhausted = true ∧ ¬node_status neg.simplify = some .UNKNOWN) →
          (ParallelNode.compute_result pos neg la).2
            = cadd pos.simplify.stats neg.simplify.stats)) := by
  constructor
  · intro child r ex sh
    refine ⟨fun e => rfl, rfl, fun s => rfl⟩
  · intro pos neg la
    refine ⟨?_, ?_, ?_⟩
    · intro h1 h2
      simp [ParallelNode.compute_result, h1, h2]
    · intro h1 h2 h3
      rw [ParallelNode.compute_result, if_neg h1, if_pos ⟨h2, h3⟩]
    · intro h1 h2
      rw [ParallelNode.compute_result, if_neg h1, if_neg h2]

/-- Witness for C9's amended statement at concrete nodes: a detached
node over a child whose stats hold one CONFIRMED leaf and one
realization keeps the CONFIRMED count and drops the realization count;
a parallel node with an exhausted REFUTED positive child propagates
that child's stats unchanged. -/
theorem stats_propagation_amended_witness :
    ((Node.deatchedPath
        (.worstResult (.var 0) none (.stem none) (.stem none)
          emptyAnalysis true none
          (cadd (csingle (.vstatus .CONFIRMED) 1) (csingle (.realization (.var 0)) 1)))
        emptyAnalysis false none none).stats (.realization (.var 0)) = 0)
  ∧ ((Node.deatchedPath
        (.worstResult (.var 0) none (.stem none) (.stem none)
          emptyAnalysis true none
          (cadd (csingle (.vstatus .CONFIRMED) 1) (csingle (.realization (.var 0)) 1)))
        emptyAnalysis false none none).stats (.vstatus .CONFIRMED) = 1)
  ∧ ((ParallelNode.compute_result
        (.worstResult (.var 0) none (.stem none) (.stem none)
          { emptyAnalysis with verification_status := some .REFUTED }
          true none (csingle (.realization (.var 0)) 1))
        (.stem none) emptyAnalysis).2
      = (Node.worstResult (.var 0) none (.stem none) (.stem none)
          { emptyAnalysis with verification_status := some .REFUTED }
          true none (csingle (.realization (.var 0)) 1)).stats) := by
  refine ⟨(stats_propagation_amended.1 _ emptyAnalysis false none).1 (.var 0), ?_, ?_⟩
  · rw [(stats_propagation_amended.1 _ emptyAnalysis false none).2.2 .CONFIRMED]
    decide
  · exact ((stats_propagation_amended.2 _ (.stem none) emptyAnalysis).1 rfl
      (by decide))

/-! ### The CONFIRMED-implies-exhausted invariant (C4)

The invariant from `NodeLike.get_result`'s contract — a CONFIRMED
result only on an exhausted node — is proved inductive over the
result-updating operations.  The inductive strengthening also requires
that a report with no verdict sits on an exhausted node: every node
that ever carries one (a leaf for an ignored path, or a merge of two
such) is exhausted, while the CONFIRMED case alone is not preserved
through `merge_node_results`' "no verdict on one side" branch. -/

/-- The strengthened per-report invariant: a (report, exhausted) pair is
acceptable when a CONFIRMED or absent verdict forces exhaustion. -/
def statusOkS (p : CallAnalysis × Bool) : Prop :=
  (p.1.verification_status = some VerificationStatus.CONFIRMED
    ∨ p.1.verification_status = none) → p.2 = true

/-- A node whose observable report/exhaustion pair satisfies the
invariant. -/
def nodeOk (n : Node) : Prop := statusOkS (n.get_result, n.is_exhausted)

theorem Node.simplify_get_result : ∀ n : Node, n.simplify.get_result = n.get_result
  | .stem none => rfl
  | .stem (some _) => rfl
  | .leaf _ => rfl
  | .singlePath _ _ _ _ _ => rfl
  | .deatchedPath _ _ _ _ _ => rfl
  | .parallel _ _ _ _ _ _ _ => rfl
  | .worstResult _ _ _ _ _ _ _ _ => rfl
  | .modelValue _ _ _ _ _ _ _ _ _ _ => rfl

theorem Node.simplify_is_exhausted : ∀ n : Node, n.simplify.is_exhausted = n.is_exhausted
  | .stem none => rfl
  | .stem (some _) => rfl
  | .leaf _ => rfl
  | .singlePath _ _ _ _ _ => rfl
  | .deatchedPath _ _ _ _ _ => rfl
  | .parallel _ _ _ _ _ _ _ => rfl
  | .worstResult _ _ _ _ _ _ _ _ => rfl
  | .modelValue _ _ _ _ _ _ _ _ _ _ => rfl

theorem nodeOk_simplify {n : Node} (h : nodeOk n) : nodeOk n.simplify := by
  unfold nodeOk statusOkS at h ⊢
  rw [Node.simplify_get_result, Node.simplify_is_exhausted]
  exact h

theorem vsMin_eq_confirmed {a b : VerificationStatus}
    (h : vsMin a b = .CONFIRMED) : a = .CONFIRMED ∧ b = .CONFIRMED := by
  revert h
  cases a <;> cases b <;> decide

/-- The merge policy preserves the strengthened invariant: if the
caller-side flag covers the left report and the node satisfies the
invariant, the merged pair satisfies it. -/
theorem merge_statusOkS (left : CallAnalysis) (ex : Bool) (node : Node)
    (hl : left.verification_status = some .CONFIRMED
        ∨ left.verification_status = none → ex = true)
    (hr : nodeOk node) :
    statusOkS (merge_node_results left ex node) := by
  intro hs
  have hspec := merge_node_results_spec left ex node
  rcases hlv : left.verification_status with _ | lv
  · rw [hspec.2.1 hlv] at hs ⊢
    have hnode : node.is_exhausted = true := hr hs
    have hex : ex = true := hl (Or.inr hlv)
    simp [hex, hnode]
  · rcases hrv : node.get_result.verification_status with _ | rv
    · rw [hspec.2.2.1 (by simp [hlv]) hrv] at hs ⊢
      have hex : ex = true := hl (by simpa [hlv] using hs)
      have hnode : node.is_exhausted = true := hr (Or.inr hrv)
      simp [hex, hnode]
    · have h4 := (hspec.2.2.2 lv rv hlv hrv).1
      rcases hs with hs | hs
      · rw [h4] at hs
        have hmin := vsMin_eq_confirmed (Option.some_injective _ hs)
        have hex : ex = true := hl (Or.inl (hlv.trans (by rw [hmin.1])))
        have hnode : node.is_exhausted = true := hr (Or.inl (hrv.trans (by rw [hmin.2])))
        rw [hspec.1, hex, hnode]
        rfl
      · rw [h4] at hs
        cases hs

theorem singlePath_statusOkS (child : Node) (h : nodeOk child) :
    statusOkS (SinglePathNode.compute_result child) := by
  unfold SinglePathNode.compute_result
  exact nodeOk_simplify h

theorem deatchedPath_statusOkS (la : CallAnalysis) (child : Node) :
    statusOkS (DeatchedPathNode.compute_result la child) :=
  fun _ => rfl

theorem worst_statusOkS (fp : Option Bool) (pos neg : Node)
    (hp : nodeOk pos) (hn : nodeOk neg) :
    statusOkS (WorstResultNode.compute_result fp pos neg).1 := by
  have hp' := nodeOk_simplify hp
  have hn' := nodeOk_simplify hn
  unfold WorstResultNode.compute_result
  dsimp only
  split_ifs with h1 h2
  · intro hs
    rcases h1 with h1 | h1
    · rcases hs with hs | hs
      · rw [node_status] at h1
        rw [h1] at hs
        cases hs
      · rw [node_status] at h1
        rw [h1] at hs
        cases hs
    · have hpe : pos.simplify.is_exhausted = true := hp' hs
      simp [WorstResultNode.is_exhausted_calc, h1, hpe]
  · intro hs
    rcases h2 with h2 | h2
    · rcases hs with hs | hs
      · rw [node_status] at h2
        rw [h2] at hs
        cases hs
      · rw [node_status] at h2
        rw [h2] at hs
        cases hs
    · have hne : neg.simplify.is_exhausted = true := hn' hs
      simp [WorstResultNode.is_exhausted_calc, h2, hne]
  · exact merge_statusOkS _ _ _ (fun hc => hp' hc) hn'

theorem parallel_statusOkS (pos neg : Node) (la : CallAnalysis)
    (hp : nodeOk pos) (hn : nodeOk neg) :
    statusOkS (ParallelNode.compute_result pos neg la).1 := by
  have hp' := nodeOk_simplify hp
  have hn' := nodeOk_simplify hn
  unfold ParallelNode.compute_result
  dsimp only
  split_ifs with h1 h2
  · exact fun _ => rfl
  · exact fun _ => rfl
  · refine merge_statusOkS _ _ _ ?_ hn'
    intro hc
    exfalso
    apply h1
    refine ⟨hp' hc, ?_⟩
    rcases hc with hc | hc <;> rw [node_status, hc] <;> simp

theorem modelValue_statusOkS (sk : Option Expr) (prev : StateSpaceCounter)
    (fp : Option Bool) (pos neg : Node) (hp : nodeOk pos) (hn : nodeOk neg) :
    statusOkS (ModelValueNode.compute_result sk prev fp pos neg).1 := by
  have hw := worst_statusOkS fp pos neg hp hn
  unfold ModelValueNode.compute_result
  rcases sk with _ | k <;> exact hw

/-- C4: the invariant "a CONFIRMED report sits only on an exhausted
node" holds at leaves and is preserved by the result-update rule of
every node kind: whenever all (simplified) children satisfy the
(strengthened) invariant, the freshly computed (report, exhausted) pair
satisfies it again, so no sequence of update operations can produce a
CONFIRMED report on a non-exhausted node. -/
theorem confirmed_implies_exhausted :
    (∀ r : CallAnalysis, statusOkS ((Node.leaf r).get_result, (Node.leaf r).is_exhausted))
  ∧ (∀ child : Node, nodeOk child → statusOkS (SinglePathNode.compute_result child))
  ∧ (∀ (la : CallAnalysis) (child : Node),
      statusOkS (DeatchedPathNode.compute_result la child))
  ∧ (∀ (pos neg : Node) (la : CallAnalysis), nodeOk pos → nodeOk neg →
      statusOkS (ParallelNode.compute_result pos neg la).1)
  ∧ (∀ (fp : Option Bool) (pos neg : Node), nodeOk pos → nodeOk neg →
      statusOkS (WorstResultNode.compute_result fp pos neg).1)
  ∧ (∀ (sk : Option Expr) (prev : StateSpaceCounter) (fp : Option Bool)
      (pos neg : Node), nodeOk pos → nodeOk neg →
      statusOkS (ModelValueNode.compute_result sk prev fp pos neg).1) :=
  ⟨fun _ _ => rfl,
   singlePath_statusOkS,
   deatchedPath_statusOkS,
   fun pos neg la hp hn => parallel_statusOkS pos neg la hp hn,
   fun fp pos neg hp hn => worst_statusOkS fp pos neg hp hn,
   fun sk prev fp pos neg hp hn => modelValue_statusOkS sk prev fp pos neg hp hn⟩

/-- Witness for C4: a forced-true worst-result node over a CONFIRMED
exhausted leaf recomputes to a CONFIRMED report with the exhausted flag
actually true. -/
theorem confirmed_implies_exhausted_witness :
    ((WorstResultNode.compute_result (some true)
        (.leaf { emptyAnalysis with verification_status := some .CONFIRMED })
        (.stem none)).1.2 = true)
  ∧ ((WorstResultNode.compute_result (some true)
        (.leaf { emptyAnalysis with verification_status := some .CONFIRMED })
        (.stem none)).1.1.verification_status = some .CONFIRMED) :=
  ⟨confirmed_implies_exhausted.2.2.2.2.1 (some true)
      (.leaf { emptyAnalysis with verification_status := some .CONFIRMED })
      (.stem none) (fun _ => rfl) (fun h => absurd h (by decide)) (Or.inl (by decide)),
   by decide⟩

/-! ### Heap lookup-or-create (C6) -/

theorem getLastD_default_irrel {α : Type} (x : α) (l : List α) (d1 d2 : α) :
    (x :: l).getLastD d1 = (x :: l).getLastD d2 := by
  rw [List.getLastD_cons, List.getLastD_cons]

theorem add_value_to_heaps_length :
    ∀ (heaps : List (List HeapEntry)) (n : Nat) (ref : Expr) (typ v : Nat),
    (add_value_to_heaps heaps n ref typ v).1.length = heaps.length := by
  intro heaps
  induction heaps with
  | nil => intro n ref typ v; rfl
  | cons older rest ih =>
    intro n ref typ v
    rcases rest with _ | ⟨r2, rs⟩
    · rfl
    · simp only [add_value_to_heaps, List.length_cons]
      rw [ih (n + 1) ref typ v]
      simp

theorem add_value_to_heaps_getD :
    ∀ (heaps : List (List HeapEntry)) (n : Nat) (ref : Expr) (typ v : Nat)
      (i : Nat), i < heaps.length →
    ∃ w, (add_value_to_heaps heaps n ref typ v).1.getD i []
      = heaps.getD i [] ++ [⟨ref, typ, w⟩] := by
  intro heaps
  induction heaps with
  | nil => intro n ref typ v i hi; cases hi
  | cons older rest ih =>
    intro n ref typ v i hi
    rcases rest with _ | ⟨r2, rs⟩
    · have hz : i = 0 := by
        simp only [List.length_cons, List.length_nil] at hi
        omega
      subst hz
      exact ⟨v, rfl⟩
    · rcases i with _ | j
      · exact ⟨n, by simp [add_value_to_heaps]⟩
      · have hj : j < (r2 :: rs).length := by
          simp only [List.length_cons] at hi ⊢
          omega
        obtain ⟨w, hw⟩ := ih (n + 1) ref typ v j hj
        refine ⟨w, ?_⟩
        simp only [add_value_to_heaps, List.getD_cons_succ]
        exact hw

theorem add_value_to_heaps_getLastD :
    ∀ (heaps : List (List HeapEntry)) (n : Nat) (ref : Expr) (typ v : Nat)
      (d : List HeapEntry), heaps ≠ [] →
    (add_value_to_heaps heaps n ref typ v).1.getLastD d
      = heaps.getLastD d ++ [⟨ref, typ, v⟩] := by
  intro heaps
  induction heaps with
  | nil => intro n ref typ v d h; exact absurd rfl h
  | cons older rest ih =>
    intro n ref typ v d _
    rcases rest with _ | ⟨r2, rs⟩
    · simp [add_value_to_heaps]
    · have hrec := ih (n + 1) ref typ v (older ++ [⟨ref, typ, n⟩]) (by simp)
      simp only [add_value_to_heaps]
      rw [List.getLastD_cons, List.getLastD_cons]
      rcases haux : (add_value_to_heaps (r2 :: rs) (n + 1) ref typ v).1 with _ | ⟨h2, t2⟩
      · exfalso
        have := add_value_to_heaps_length (r2 :: rs) (n + 1) ref typ v
        rw [haux] at this
        simp at this
      · rw [haux] at hrec
        rw [getLastD_default_irrel h2 t2 _ (older ++ [⟨ref, typ, n⟩]), hrec]
        exact congrArg (· ++ [⟨ref, typ, v⟩]) (getLastD_default_irrel r2 rs older d)

theorem copy_entries_mem (ref : Expr) (typ v : Nat) :
    ∀ (l : List HeapEntry) (n : Nat), (⟨ref, typ, v⟩ : HeapEntry) ∈ l →
    ∃ w, (⟨ref, typ, w⟩ : HeapEntry) ∈ (copy_entries n l).1 := by
  intro l
  induction l with
  | nil => intro n h; cases h
  | cons e rest ih =>
    intro n h
    rcases List.mem_cons.mp h with he | hrest
    · refine ⟨n, ?_⟩
      have : ({ e with val := n } : HeapEntry) = ⟨ref, typ, n⟩ := by rw [← he]
      simp [copy_entries, this]
    · obtain ⟨w, hw⟩ := ih (n + 1) hrest
      exact ⟨w, by simp [copy_entries, hw]⟩

/-- Counterexample to C6 as stated: the claim says the value created by
a missing-key lookup "is not visible in snapshots that were taken before
the lookup".  But `add_value_to_heaps` appends a (deep-copied) entry for
the reference to every older snapshot as well: starting from two empty
snapshots (the older one created by a checkpoint before the lookup), a
miss on `var 0` leaves the pre-existing older snapshot holding an entry
for `var 0`. -/
theorem heap_visibility_counterexample :
    ((find_key_in_heap (fun _ _ => true) (fun _ _ => false)
        [[], []] 0 (.var 0) 0 (fun _ n => n)).2.1.getD 0 []
      = [⟨.var 0, 0, 1⟩])
  ∧ ¬(((find_key_in_heap (fun _ _ => true) (fun _ _ => false)
        [[], []] 0 (.var 0) 0 (fun _ n => n)).2.1.getD 0 []).all
        (fun e => !(e.ref = Expr.var 0)) = true) := by
  constructor
  · rfl
  · decide

/-- C6 as amended: a lookup that finds no matching entry creates exactly
one new value (one `proxy_generator` call) and appends an entry for the
reference to EVERY existing snapshot — the created value itself to the
live snapshot and deep copies of it to each snapshot taken before the
lookup — and the entry is carried into every snapshot a later checkpoint
creates. -/
theorem heap_miss_amended (unify : Nat → Nat → Bool) (fork : Expr → Expr → Bool)
    (heaps : List (List HeapEntry)) (next_id : Nat) (ref : Expr) (typ : Nat)
    (proxy : Nat → Nat → Nat)
    (hne : heaps ≠ [])
    (hmiss : ∀ e ∈ heaps.getLastD [],
      ¬(unify e.typ typ = true ∧ fork e.ref ref = true)) :
    ((find_key_in_heap unify fork heaps next_id ref typ proxy).1
      = proxy typ next_id)
  ∧ ((find_key_in_heap unify fork heaps next_id ref typ proxy).2.1.length
      = heaps.length)
  ∧ (∀ i, i < heaps.length →
      ∃ w, (find_key_in_heap unify fork heaps next_id ref typ proxy).2.1.getD i []
        = heaps.getD i [] ++ [⟨ref, typ, w⟩])
  ∧ ((find_key_in_heap unify fork heaps next_id ref typ proxy).2.1.getLastD []
      = heaps.getLastD [] ++ [⟨ref, typ, proxy typ next_id⟩])
  ∧ (∀ m : Nat, ∃ w,
      (⟨ref, typ, w⟩ : HeapEntry) ∈
        ((checkpoint (find_key_in_heap unify fork heaps next_id ref typ proxy).2.1
          m).1.getLastD [])) := by
  have hfind : (heaps.getLastD []).find?
      (fun e => unify e.typ typ && fork e.ref ref) = none := by
    rw [List.find?_eq_none]
    intro e he
    have := hmiss e he
    intro hb
    rcases Bool.and_eq_true_iff.mp hb with ⟨h1, h2⟩
    exact this ⟨h1, h2⟩
  unfold find_key_in_heap
  rw [hfind]
  dsimp only
  refine ⟨rfl, add_value_to_heaps_length heaps _ ref typ _, ?_, ?_, ?_⟩
  · intro i hi
    exact add_value_to_heaps_getD heaps _ ref typ _ i hi
  · exact add_value_to_heaps_getLastD heaps _ ref typ _ [] hne
  · intro m
    have hlast := add_value_to_heaps_getLastD heaps (next_id + 1) ref typ
      (proxy typ next_id) [] hne
    have hmem : (⟨ref, typ, proxy typ next_id⟩ : HeapEntry) ∈
        (add_value_to_heaps heaps (next_id + 1) ref typ (proxy typ next_id)).1.getLastD [] := by
      rw [hlast]
      simp
    unfold checkpoint
    dsimp only
    obtain ⟨w, hw⟩ := copy_entries_mem ref typ (proxy typ next_id) _ m hmem
    refine ⟨w, ?_⟩
    rw [List.getLastD_concat]
    exact hw

/-- Witness for C6's amended statement at a concrete miss: two
snapshots, empty live snapshot, no matching entry; afterwards both
snapshots carry an entry for the reference and a later checkpoint's
snapshot carries it too. -/
theorem heap_miss_amended_witness :
    ((find_key_in_heap (fun _ _ => true) (fun _ _ => false)
        [[], []] 0 (.var 0) 0 (fun _ n => n)).1 = 0)
  ∧ (∀ i, i < 2 →
      ∃ w, (find_key_in_heap (fun _ _ => true) (fun _ _ => false)
        [[], []] 0 (.var 0) 0 (fun _ n => n)).2.1.getD i []
        = ([[], []] : List (List HeapEntry)).getD i [] ++ [⟨.var 0, 0, w⟩])
  ∧ (∀ m : Nat, ∃ w,
      (⟨Expr.var 0, 0, w⟩ : HeapEntry) ∈
        ((checkpoint (find_key_in_heap (fun _ _ => true) (fun _ _ => false)
          [[], []] 0 (.var 0) 0 (fun _ n => n)).2.1 m).1.getLastD [])) := by
  have h := heap_miss_amended (fun _ _ => true) (fun _ _ => false)
    [[], []] 0 (.var 0) 0 (fun _ n => n) (by simp) (by simp)
  exact ⟨h.1, fun i hi => h.2.2.1 i (by simpa using hi), h.2.2.2.2⟩

/-! ### Model-value materialization (C5)

`find_model_value` walks a chain of `ModelValueNode`s along negative
children.  `mvChainWF` states that each node's stored `condition_value`
is the value the solver's model gives the expression under the
constraints in force when that node is reached — true of freshly grown
nodes by construction and of replayed nodes by the determinism of
replay (the tree was grown by an identical earlier iteration). -/

def mvChainWF (me : List Expr → Expr → Int) (expr : Expr) :
    Node → List Expr → Prop
  | .stem (some n), c => mvChainWF me expr n c
  | .modelValue _ cv _ _ _ neg _ _ _ _, c =>
    cv = me c expr ∧ mvChainWF me expr neg (Expr.neVal expr cv :: c)
  | _, _ => True

theorem mvChainWF_simplify {me : List Expr → Expr → Int} {expr : Expr}
    {n : Node} {c : List Expr} (h : mvChainWF me expr n c) :
    mvChainWF me expr n.simplify c := by
  cases n with
  | stem evo =>
    cases evo with
    | none => exact h
    | some m => exact h
  | leaf r => exact h
  | singlePath d ch r ex sh => exact h
  | deatchedPath ch r ex sh st => exact h
  | parallel fp p ng r ex sh st => exact h
  | worstResult e f p ng r ex sh st => exact h
  | modelValue e cv sk f p ng r ex sh st => exact h

/-- The choice a `ModelValueNode` makes always routes a `false` choice
to the negative child (shape of `choose`). -/
theorem modelValue_choose_shape (e0 : Expr) (cv : Int) (sk : Option Expr)
    (fp : Option Bool) (pos neg : Node) (r0 : CallAnalysis) (ex : Bool)
    (sh : Option String) (st : StateSpaceCounter) (rv : Rat) (ft : Bool) :
    ∃ c : Bool, Node.choose (.modelValue e0 cv sk fp pos neg r0 ex sh st) rv ft
      = (c, if c then pos else neg) := by
  rcases fp with _ | b
  · exact ⟨_, rfl⟩
  · exact ⟨b, rfl⟩

/-- Bookkeeping for one rejected candidate: appending the candidate to
the rejection list preserves distinctness (the candidate was drawn from
a model of constraints that exclude every later candidate) and the
model-provenance of every entry. -/
theorem reject_step_assemble (me : List Expr → Expr → Int) (expr : Expr)
    (hcons : ∀ (c : List Expr) (w : Int), Expr.neVal expr w ∈ c → me c expr ≠ w)
    (cv v : Int) (c : List Expr) (rejected1 : List Int)
    (hcv : cv = me c expr)
    (hnodup1 : (v :: rejected1).Nodup)
    (hmem1 : ∀ w ∈ v :: rejected1, ∃ c2 : List Expr,
      w = me c2 expr ∧ ∀ x ∈ Expr.neVal expr cv :: c, x ∈ c2) :
    ((v :: (rejected1 ++ [cv])).Nodup
  ∧ ∀ w ∈ v :: (rejected1 ++ [cv]), ∃ c2 : List Expr,
      w = me c2 expr ∧ ∀ x ∈ c, x ∈ c2) := by
  have hfresh : ∀ w ∈ v :: rejected1, w ≠ cv := by
    intro w hw he
    obtain ⟨c2, hw2, hsub2⟩ := hmem1 w hw
    exact hcons c2 cv (hsub2 _ (List.mem_cons_self _ _)) (hw2.symm.trans he)
  obtain ⟨hvnotin, hrej⟩ := List.nodup_cons.mp hnodup1
  constructor
  · rw [List.nodup_cons]
    constructor
    · intro hin
      rcases List.mem_append.mp hin with hin | hin
      · exact hvnotin hin
      · exact hfresh v (List.mem_cons_self _ _) (List.mem_singleton.mp hin)
    · rw [List.nodup_append]
      refine ⟨hrej, List.nodup_singleton cv, ?_⟩
      intro a ha hb
      exact hfresh a (List.mem_cons_of_mem _ ha) (List.mem_singleton.mp hb)
  · intro w hw
    rcases List.mem_cons.mp hw with hw | hw
    · obtain ⟨c2, hw2, hsub2⟩ := hmem1 w (hw ▸ List.mem_cons_self v rejected1)
      exact ⟨c2, hw2, fun x hx => hsub2 x (List.mem_cons_of_mem _ hx)⟩
    · rcases List.mem_append.mp hw with hw | hw
      · obtain ⟨c2, hw2, hsub2⟩ := hmem1 w (List.mem_cons_of_mem _ hw)
        exact ⟨c2, hw2, fun x hx => hsub2 x (List.mem_cons_of_mem _ hx)⟩
      · rw [List.mem_singleton] at hw
        subst hw
        exact ⟨c, hcv, fun x hx => hx⟩

theorem find_model_value_constraints (me : List Expr → Expr → Int) (expr : Expr)
    (hcons : ∀ (c : List Expr) (w : Int), Expr.neVal expr w ∈ c → me c expr ≠ w) :
    ∀ (fuel : Nat) (ss : StateSpace) (v : Int) (ss2 : StateSpace),
    ss.solver.modelEval = me →
    mvChainWF me expr ss.search_position ss.solver.constraints →
    find_model_value fuel ss expr = .ok (some (v, ss2)) →
    ∃ rejected : List Int,
      ss2.solver.constraints
        = Expr.eqVal expr v :: (rejected.map (Expr.neVal expr) ++ ss.solver.constraints)
      ∧ (v :: rejected).Nodup
      ∧ (∀ w ∈ v :: rejected, ∃ c2 : List Expr,
          w = me c2 expr ∧ ∀ x ∈ ss.solver.constraints, x ∈ c2) := by
  intro fuel
  induction fuel with
  | zero =>
    intro ss v ss2 _ _ h
    simp [find_model_value] at h
  | succ fuel ih =>
    intro ss v ss2 hme hwf h
    simp only [find_model_value] at h
    by_cases hstem : ss.search_position.is_stem
    · rw [if_pos hstem] at h
      rcases hmk : mkModelValueNode ss.solver expr with e | ⟨cv, sk, fp⟩
      · rw [hmk] at h
        dsimp only at h
        cases h
      · rw [hmk] at h
        dsimp only at h
        have hcv : cv = me ss.solver.constraints expr := by
          unfold mkModelValueNode at hmk
          rcases hq : ss.solver.oracle ss.solver.constraints [] with _ | _ | _ <;>
            rw [hq] at hmk <;> dsimp only at hmk
          · rcases hw : (mkWorstResultNode ss.solver
                (.eqVal expr (ss.solver.modelEval ss.solver.constraints expr))).1
              with e2 | fp2 <;> rw [hw] at hmk
            · cases hmk
            · rw [← hme]
              exact (congrArg (fun t => t.1) (Except.ok.inj hmk)).symm
          · cases hmk
          · cases hmk
        rcases fp with _ | b
        · -- unforced fresh node: favor_true accepts immediately
          have hred : Node.choose (.modelValue (Expr.eqVal expr cv) cv sk none
              (.stem none) (.stem none) emptyAnalysis false none czero) 0 true
              = (true, .stem none) := rfl
          rw [hred] at h
          rw [if_pos rfl] at h
          rw [Except.ok.injEq, Option.some.injEq, Prod.mk.injEq] at h
          obtain ⟨hv, hss⟩ := h
          refine ⟨[], ?_, by simp, ?_⟩
          · rw [← hss, ← hv]
            rfl
          · intro w hw
            rw [List.mem_singleton] at hw
            subst hw
            exact ⟨ss.solver.constraints, by rw [← hv, hcv], fun x hx => hx⟩
        · cases b
          · -- forced to the negative side: reject cv, recurse at the stem child
            have hred : Node.choose (.modelValue (Expr.eqVal expr cv) cv sk (some false)
                (.stem none) (.stem none) emptyAnalysis false none czero) 0 true
                = (false, .stem none) := rfl
            rw [hred] at h
            rw [if_neg (by simp)] at h
            obtain ⟨rejected1, hc1, hnodup1, hmem1⟩ :=
              ih _ v ss2 (by exact hme) (by simp [mvChainWF]) h
            have hstep := reject_step_assemble me expr hcons cv v
              ss.solver.constraints rejected1 hcv hnodup1 hmem1
            refine ⟨rejected1 ++ [cv], ?_, hstep.1, hstep.2⟩
            rw [hc1]
            simp [Solver.add]
          · -- forced to the positive side: accept
            have hred : Node.choose (.modelValue (Expr.eqVal expr cv) cv sk (some true)
                (.stem none) (.stem none) emptyAnalysis false none czero) 0 true
                = (true, .stem none) := rfl
            rw [hred] at h
            rw [if_pos rfl] at h
            rw [Except.ok.injEq, Option.some.injEq, Prod.mk.injEq] at h
            obtain ⟨hv, hss⟩ := h
            refine ⟨[], ?_, by simp, ?_⟩
            · rw [← hss, ← hv]
              rfl
            · intro w hw
              rw [List.mem_singleton] at hw
              subst hw
              exact ⟨ss.solver.constraints, by rw [← hv, hcv], fun x hx => hx⟩
    · rw [if_neg hstem] at h
      have hwf' := mvChainWF_simplify hwf
      rcases hnode : ss.search_position.simplify
        with evo | r | ⟨d, ch, r2, ex2, sh2⟩ | ⟨ch, r2, ex2, sh2, st2⟩
        | ⟨fprob, p, ng, r2, ex2, sh2, st2⟩ | ⟨e1, f1, p, ng, r2, ex2, sh2, st2⟩
        | ⟨e0, cv, sk, fp, pos, neg, r0, ex0, sh0, st0⟩
      · rw [hnode] at h; dsimp only at h; cases h
      · rw [hnode] at h; dsimp only at h; cases h
      · rw [hnode] at h; dsimp only at h; cases h
      · rw [hnode] at h; dsimp only at h; cases h
      · rw [hnode] at h; dsimp only at h; cases h
      · rw [hnode] at h; dsimp only at h; cases h
      · rw [hnode] at h
        dsimp only at h
        rw [hnode] at hwf'
        have hwfm : cv = me ss.solver.constraints expr ∧
            mvChainWF me expr neg (Expr.neVal expr cv :: ss.solver.constraints) := hwf'
        obtain ⟨hcv, hneg⟩ := hwfm
        obtain ⟨cbit, hch⟩ := modelValue_choose_shape e0 cv sk fp pos neg r0 ex0 sh0 st0 0 true
        rw [hch] at h
        cases cbit
        · -- rejected: assert the disequality and continue at the negative child
          rw [if_neg (by simp)] at h
          obtain ⟨rejected1, hc1, hnodup1, hmem1⟩ :=
            ih _ v ss2 (by exact hme) (by exact hneg) h
          have hstep := reject_step_assemble me expr hcons cv v
            ss.solver.constraints rejected1 hcv hnodup1 hmem1
          refine ⟨rejected1 ++ [cv], ?_, hstep.1, hstep.2⟩
          rw [hc1]
          simp [Solver.add]
        · -- accepted: assert the equality and return
          rw [if_pos rfl] at h
          rw [Except.ok.injEq, Option.some.injEq, Prod.mk.injEq] at h
          obtain ⟨hv, hss⟩ := h
          refine ⟨[], ?_, by simp, ?_⟩
          · rw [← hss, ← hv]
            rfl
          · intro w hw
            rw [List.mem_singleton] at hw
            subst hw
            exact ⟨ss.solver.constraints, by rw [← hv, hcv], fun x hx => hx⟩

/-- A concrete model evaluator for witnesses: one more than the largest
value already excluded for the expression by a `neVal` constraint, so it
always satisfies the asserted disequalities. -/
def freshVal (c : List Expr) (e : Expr) : Int :=
  (c.foldr (fun x acc =>
    match x with
    | Expr.neVal e2 w => if e2 = e then max acc w else acc
    | _ => acc) 0) + 1

theorem freshVal_bound : ∀ (c : List Expr) (e : Expr) (w : Int),
    Expr.neVal e w ∈ c →
    w ≤ c.foldr (fun x acc =>
      match x with
      | Expr.neVal e2 w2 => if e2 = e then max acc w2 else acc
      | _ => acc) 0 := by
  intro c e w
  induction c with
  | nil => intro h; cases h
  | cons x rest ih =>
    intro h
    rcases List.mem_cons.mp h with hx | hr
    · rw [← hx]
      simp only [List.foldr_cons, if_pos rfl]
      exact le_max_right _ _
    · have hrec := ih hr
      rcases x with i | e2 | ⟨e2, w2⟩ | ⟨e2, w2⟩ <;> simp only [List.foldr_cons]
      · exact hrec
      · exact hrec
      · exact hrec
      · by_cases he : e2 = e
        · rw [if_pos he]
          exact le_trans hrec (le_max_left _ _)
        · rw [if_neg he]
          exact hrec

theorem freshVal_fresh : ∀ (c : List Expr) (e : Expr) (w : Int),
    Expr.neVal e w ∈ c → freshVal c e ≠ w := by
  intro c e w h
  have hb := freshVal_bound c e w h
  unfold freshVal
  omega

/-- C5: model-value materialization.  First, constructing the
underlying `ModelValueNode` fails fatally (`CrosshairInternal`) when the
solver reports unsatisfiable immediately before model extraction.
Second, whenever the `find_model_value` loop returns a value, the
solver's constraint stack has grown by exactly the equality
`expr == value` for the accepted candidate on top of one disequality
`expr != w` per rejected candidate, and — given that the model evaluator
honours asserted disequalities and that each node's stored condition
value came from the model at that point (`mvChainWF`; true by
construction for grown nodes and by replay determinism for revisited
ones) — the candidates offered are pairwise distinct: the same
expression is never offered the same candidate value twice. -/
theorem find_model_value_spec :
    (∀ (s : Solver) (expr : Expr),
      s.oracle s.constraints [] = .unsat →
      mkModelValueNode s expr = .error .crosshairInternal)
  ∧ (∀ (me : List Expr → Expr → Int) (expr : Expr),
      (∀ (c : List Expr) (w : Int), Expr.neVal expr w ∈ c → me c expr ≠ w) →
      ∀ (fuel : Nat) (ss : StateSpace) (v : Int) (ss2 : StateSpace),
      ss.solver.modelEval = me →
      mvChainWF me expr ss.search_position ss.solver.constraints →
      find_model_value fuel ss expr = .ok (some (v, ss2)) →
      ∃ rejected : List Int,
        ss2.solver.constraints
          = Expr.eqVal expr v :: (rejected.map (Expr.neVal expr) ++ ss.solver.constraints)
        ∧ (v :: rejected).Nodup
        ∧ (∀ w ∈ v :: rejected, ∃ c2 : List Expr,
            w = me c2 expr ∧ ∀ x ∈ ss.solver.constraints, x ∈ c2)) :=
  ⟨fun s expr h => by simp [mkModelValueNode, h],
   find_model_value_constraints⟩

/-- Witness for C5: an unsat solver makes node construction fail
fatally; and a concrete one-step run (fresh stem, always-sat oracle,
`freshVal` as the model) accepts the first candidate, leaving exactly
the accepting equality on the constraint stack with a duplicate-free
candidate list. -/
theorem find_model_value_spec_witness :
    (mkModelValueNode { oracle := fun _ _ => .unsat,
                        modelEval := freshVal,
                        constraints := [] } (.var 0)
      = .error .crosshairInternal)
  ∧ (∃ v : Int, ∃ ss2 : StateSpace,
      find_model_value 1 (sampleSpace (fun _ _ => .sat) freshVal (.stem none)) (.var 0)
        = .ok (some (v, ss2))
    ∧ ∃ rejected : List Int,
        ss2.solver.constraints
          = Expr.eqVal (.var 0) v :: (rejected.map (Expr.neVal (.var 0)) ++ [])
        ∧ (v :: rejected).Nodup
        ∧ (∀ w ∈ v :: rejected, ∃ c2 : List Expr,
            w = freshVal c2 (.var 0) ∧ ∀ x ∈ ([] : List Expr), x ∈ c2)) := by
  constructor
  · exact find_model_value_spec.1 _ (.var 0) rfl
  · refine ⟨freshVal [] (.var 0), _, rfl, ?_⟩
    exact find_model_value_spec.2 freshVal (.var 0)
      (fun c w h => freshVal_fresh c (.var 0) w h) 1
      (sampleSpace (fun _ _ => .sat) freshVal (.stem none))
      (freshVal [] (.var 0)) _ rfl (by simp [mvChainWF, sampleSpace]) rfl

end CrossHair
